/-
Verification of the market_realtime WebSocket middleware
(`apps/websocket_middleware/app/main.py` and `apps/shared/utils/cache.py`)
against its natural-language specification.

The embedding is shallow: Python dictionaries become functions into `Option`,
Python sets become duplicate-free lists with membership-guarded insertion,
Redis lists become Lean lists (head = most recently pushed), and the
`try/except` blocks of the source become explicit `Except` catches.
Prices and quantities are modelled as rationals.
-/
import Mathlib

namespace MarketRealtime

/-! ## Set and map primitives

Python `set.add` / `set.discard` on sets of client ids / symbols, modelled on
duplicate-free lists (a Python set is unordered; every property proved below
is order-insensitive, i.e. about membership only).  Python `dict` becomes a
function `String → Option α`; `none` is "key absent". -/

/-- Python `s.add x` on a set: insert if not already present. -/
def sInsert (x : String) (l : List String) : List String :=
  if x ∈ l then l else x :: l

/-- Python `s.discard x` on a set: remove every occurrence. -/
def sErase (x : String) (l : List String) : List String :=
  l.filter (fun y => y ≠ x)

/-- Python `d[k] = v` on a dict. -/
def dInsert (k : String) (v : α) (m : String → Option α) : String → Option α :=
  fun x => if x = k then some v else m x

/-- Python `del d[k]` on a dict (total: deleting an absent key is a no-op,
which matches every call site, each guarded by `if k in d`). -/
def dErase (k : String) (m : String → Option α) : String → Option α :=
  fun x => if x = k then none else m x

/-! ## Subscription registry state

`ConnectionManager.__init__` (main.py:76-79): `active_connections` is a dict
`client_id → WebSocket`; only its key set is observable by the registry logic,
so we keep the key set.  `symbol_subscriptions : symbol → set of client_ids`,
`client_subscriptions : client_id → set of symbols`. -/

structure RegState where
  active : List String
  symSubs : String → Option (List String)
  cliSubs : String → Option (List String)

/-- The manager's initial state: all three containers empty. -/
def RegState.init : RegState :=
  { active := [], symSubs := fun _ => none, cliSubs := fun _ => none }

/-- Source `ConnectionManager.connect` (main.py:81-85): accept the socket, store it
in `active_connections[client_id]`, and set `client_subscriptions[client_id]`
to a fresh empty set (overwriting any previous entry for that id). -/
def connect (c : String) (st : RegState) : RegState :=
  { st with
    active := sInsert c st.active
    cliSubs := dInsert c [] st.cliSubs }

/-- One iteration of the cleanup loop in `disconnect` (main.py:93-97):
`if symbol in self.symbol_subscriptions: discard(client_id); if empty: del`. -/
def dropFromSymbol (c s : String) (m : String → Option (List String)) :
    String → Option (List String) :=
  match m s with
  | none => m
  | some cs =>
      let cs' := sErase c cs
      if cs' = [] then dErase s m else dInsert s cs' m

/-- Source `ConnectionManager.disconnect` (main.py:87-100): delete the client from
`active_connections`; then, if it has a `client_subscriptions` entry, discard
it from each of those symbols' subscriber sets (deleting sets that become
empty) and delete its own entry. -/
def disconnect (c : String) (st : RegState) : RegState :=
  let active' := sErase c st.active
  match st.cliSubs c with
  | none => { st with active := active' }
  | some syms =>
      { active := active'
        symSubs := syms.foldl (fun m s => dropFromSymbol c s m) st.symSubs
        cliSubs := dErase c st.cliSubs }

/-- Source `ConnectionManager.subscribe_to_symbol` (main.py:102-111).  The source
raises `HTTPException` when the client is not connected (before any mutation);
with the client connected it ensures `symbol_subscriptions[symbol]` exists,
adds the client to it, and then adds the symbol to
`client_subscriptions[client_id]` — the last step is a bare dict indexing that
would raise `KeyError` *after* the first mutation if the entry were missing.
We model the result as `(state, ok)`, keeping the partial mutation in the
`KeyError` case exactly as the source would leave it. -/
def subscribe (c s : String) (st : RegState) : RegState × Bool :=
  if c ∈ st.active then
    let st1 := { st with
      symSubs := dInsert s (sInsert c ((st.symSubs s).getD [])) st.symSubs }
    match st.cliSubs c with
    | some ss => ({ st1 with cliSubs := dInsert c (sInsert s ss) st.cliSubs }, true)
    | none => (st1, false)
  else (st, false)

/-- Source `ConnectionManager.unsubscribe_from_symbol` (main.py:153-163): discard the
client from the symbol's subscriber set if that set exists (deleting it when
it becomes empty), then discard the symbol from the client's subscription set
if the client has one.  Never raises. -/
def unsubscribe (c s : String) (st : RegState) : RegState :=
  { st with
    symSubs := dropFromSymbol c s st.symSubs
    cliSubs := fun x =>
      if x = c then (st.cliSubs c).map (fun ss => sErase s ss) else st.cliSubs x }

/-! ## Reachability -/

/-- One client-lifecycle operation on the registry. -/
inductive Op where
  | connect (c : String)
  | disconnect (c : String)
  | subscribe (c s : String)
  | unsubscribe (c s : String)

/-- Apply one operation (the state component of `subscribe`). -/
def applyOp (st : RegState) : Op → RegState
  | .connect c => connect c st
  | .disconnect c => disconnect c st
  | .subscribe c s => (subscribe c s st).1
  | .unsubscribe c s => unsubscribe c s st

/-- Run a sequence of operations from the initial state. -/
def runOps (ops : List Op) : RegState :=
  ops.foldl applyOp RegState.init

/-- Membership of `x` in the set stored under key `k` of a dict-of-sets
(`x ∈ d.get(k, set())` in Python terms). -/
def mem2 (m : String → Option (List String)) (k x : String) : Prop :=
  ∃ l, m k = some l ∧ x ∈ l

instance (m : String → Option (List String)) (k x : String) :
    Decidable (mem2 m k x) := by
  unfold mem2
  match h : m k with
  | none => exact .isFalse (by simp [h])
  | some l => exact decidable_of_iff (x ∈ l) (by simp [h])

/-- The effect of `discard(c)` followed by delete-if-empty on one dict value:
what `dropFromSymbol` does to the entry it targets. -/
def dropValue (c : String) : Option (List String) → Option (List String)
  | none => none
  | some cs => if sErase c cs = [] then none else some (sErase c cs)

/-- The cleanup fold of `disconnect`, as a named function. -/
def dropAll (c : String) (syms : List String)
    (m : String → Option (List String)) : String → Option (List String) :=
  syms.foldl (fun m s => dropFromSymbol c s m) m

/-! ## Registry invariants

`Inv` collects the structural facts that hold in every state reachable from
the initial manager: no symbol is mapped to an empty subscriber set (empty
sets are deleted eagerly), a symbol recorded in a client's subscription set
has that client in its subscriber set, and a client is in
`active_connections` exactly when it has a `client_subscriptions` entry.
`Consistent` is the full bidirectional agreement of the two indexes. -/

structure Inv (st : RegState) : Prop where
  noEmpty : ∀ s cs, st.symSubs s = some cs → cs ≠ []
  cliToSym : ∀ c s, mem2 st.cliSubs c s → mem2 st.symSubs s c
  activeDom : ∀ c, c ∈ st.active ↔ (st.cliSubs c).isSome

def Consistent (st : RegState) : Prop :=
  ∀ c s, mem2 st.symSubs s c ↔ mem2 st.cliSubs c s

/-- A run is "fresh-connecting" when every `connect` in it targets an id that
is not currently connected (the source accepts a reconnect of a live id and
silently resets its subscription index; this predicate excludes that). -/
def FreshRun : RegState → List Op → Bool
  | _, [] => true
  | st, op :: ops =>
      (match op with
       | .connect c => !(decide (c ∈ st.active))
       | _ => true) && FreshRun (applyOp st op) ops

/-- A connection with no trace left in the registry: not active and in no
symbol's subscriber set. -/
def Cleared (st : RegState) (c : String) : Prop :=
  c ∉ st.active ∧ ∀ s, ¬ mem2 st.symSubs s c

/-! ## Fan-out

`ConnectionManager.broadcast_to_symbol` (main.py:171-187).  `sendOk c` models
whether `send_text` on client `c`'s transport succeeds.  The source sends to
`self.active_connections[client_id]`; a client id that is in the subscriber
set but not in `active_connections` raises `KeyError` inside the `try`, which
the bare `except` catches like a transport error, so it too counts as a
failed delivery.  Failures are collected during the loop and each failed
client is passed to `disconnect` after the loop. -/
def broadcast_to_symbol (sendOk : String → Bool) (s : String) (st : RegState) :
    RegState × List String × List String :=
  match st.symSubs s with
  | none => (st, [], [])
  | some subs =>
      let delivered := subs.filter (fun c => decide (c ∈ st.active) && sendOk c)
      let failed := subs.filter (fun c => !(decide (c ∈ st.active) && sendOk c))
      (failed.foldl (fun acc c => disconnect c acc) st, delivered, failed)

/-! ## Order-book snapshots and derived metrics

The producer interface (main.py:223-224 and fake_orderbook_service.py)
delivers `orderbook_data` as a dict with `Bid`/`Ask` lists of levels, each
level a list `[price, quantity, ...]`.  Prices and quantities are modelled as
rationals.  `orderbook_data.get("Bid", [])` means a missing key reads as the
empty list, so the two level lists are plain fields. -/

structure OrderBookData where
  bid : List (List ℚ)
  ask : List (List ℚ)
  timestamp : Option String
deriving DecidableEq

/-- Level price `level[0]` and quantity `level[1]` as total functions; they are only ever applied to
levels that passed the length-≥-2 filter, where they agree with the source's
partial indexing. -/
def levelPrice (l : List ℚ) : ℚ := l.getD 0 0

def levelQty (l : List ℚ) : ℚ := l.getD 1 0

/-- main.py:230-231 - `[level for level in levels if isinstance(level, list)
and len(level) >= 2]`; in this model every level is a list, so only the
length test remains. -/
def validLevels (ls : List (List ℚ)) : List (List ℚ) :=
  ls.filter (fun l => decide (2 ≤ l.length))

/-- Python's builtin `max` over a nonempty sequence, via `foldl`
(the `[]` case is never reached by the call sites, which guard emptiness). -/
def listMax : List ℚ → ℚ
  | [] => 0
  | x :: xs => xs.foldl max x

/-- Python's builtin `min` over a nonempty sequence. -/
def listMin : List ℚ → ℚ
  | [] => 0
  | x :: xs => xs.foldl min x

/-- The row written by `db_manager.save_order_book_data` (main.py:257-270).
The parsed wall-clock timestamp is outside the model. -/
structure DbRecord where
  symbol : String
  best_bid : ℚ
  best_ask : ℚ
  mid_price : ℚ
  spread : ℚ
  spread_percentage : ℚ
  bid_volume : ℚ
  ask_volume : ℚ
  total_volume : ℚ
  bid_levels : List (List ℚ)
  ask_levels : List (List ℚ)
deriving DecidableEq

/-- The body of the `try:` in `ConnectionManager.store_orderbook_data`
(main.py:218-270): early-return `none` on an empty or fully-malformed side,
otherwise compute the derived metrics and submit the row to the database
write, which is the one call that can raise (`dbOk = false`). -/
def storeAttempt (dbOk : Bool) (symbol : String) (od : OrderBookData) :
    Except String (Option DbRecord) :=
  if od.bid = [] ∨ od.ask = [] then .ok none
  else
    let vb := validLevels od.bid
    let va := validLevels od.ask
    if vb = [] ∨ va = [] then .ok none
    else
      let best_bid := listMax (vb.map levelPrice)
      let best_ask := listMin (va.map levelPrice)
      let mid_price := (best_bid + best_ask) / 2
      let spread := best_ask - best_bid
      let spread_percentage := if 0 < mid_price then spread / mid_price * 100 else 0
      let bid_volume := (vb.map levelQty).sum
      let ask_volume := (va.map levelQty).sum
      if dbOk then
        .ok (some
          { symbol := symbol, best_bid := best_bid, best_ask := best_ask
            mid_price := mid_price, spread := spread
            spread_percentage := spread_percentage, bid_volume := bid_volume
            ask_volume := ask_volume, total_volume := bid_volume + ask_volume
            bid_levels := od.bid, ask_levels := od.ask })
      else .error "database write failed"

/-- Source `ConnectionManager.store_orderbook_data` (main.py:216-273): the
`except Exception` around the body catches anything the database write
raises and only logs it, so nothing is persisted and no exception escapes. -/
def store_orderbook_data (dbOk : Bool) (symbol : String) (od : OrderBookData) :
    Option DbRecord :=
  match storeAttempt dbOk symbol od with
  | .ok r => r
  | .error _ => none

/-! ## Cache store

Redis keys `orderbook:{symbol}:latest` (string) and
`orderbook:{symbol}:history` (list, head = most recently pushed).  Key TTLs
are wall-clock behaviour outside this model; the JSON encode/decode round
trip is the identity on this structured representation. -/

/-- One cached payload.  `cache_orderbook_data` (main.py:282-287) builds the
dict `{symbol, timestamp, data, cached_at}`; a field of kind `Option`
models presence or absence of the corresponding dict key.  `time` is the key
the today-read filters on; the ingestion path never writes it. -/
structure CacheData where
  symbol : String
  timestamp : Option String
  data : OrderBookData
  cached_at : Int
  time : Option Int
deriving DecidableEq

structure CacheState where
  latest : String → Option CacheData
  history : String → List CacheData

def CacheState.init : CacheState :=
  { latest := fun _ => none, history := fun _ => [] }

/-- Source `RedisCacheManager.cache_order_book_data` (cache.py:88-125): SETEX the
latest slot, LPUSH the payload onto the history list, LTRIM the list to
indices 0..99 (the 100 most recent entries), refresh its TTL. -/
def cache_order_book_data (symbol : String) (data : CacheData)
    (cs : CacheState) : CacheState :=
  { latest := dInsert symbol data cs.latest
    history := fun x =>
      if x = symbol then (data :: cs.history symbol).take 100
      else cs.history x }

/-- Redis `LRANGE key 0 stop`: a negative `stop` counts from the end of the
list (-1 is the last element); the result is the elements at indices
0..stop inclusive. -/
def lrangeFromZero (l : List CacheData) (stop : Int) : List CacheData :=
  let eff : Int := if stop < 0 then l.length + stop else stop
  if eff < 0 then [] else l.take (eff.toNat + 1)

/-- Source `RedisCacheManager.get_cached_order_book_history` (cache.py:151-180):
`lrange(history_key, 0, limit - 1)`. -/
def get_cached_order_book_history (symbol : String) (limit : Int)
    (cs : CacheState) : List CacheData :=
  lrangeFromZero (cs.history symbol) (limit - 1)

/-- Source `RedisCacheManager.get_cached_order_book_data_today` (cache.py:182-216):
reads the whole history list and keeps entries whose `time` key is present
and parses to a timestamp at or after local midnight (`todayStart`); entries
without a `time` key are skipped. -/
def get_cached_order_book_data_today (todayStart : Int) (symbol : String)
    (cs : CacheState) : List CacheData :=
  (cs.history symbol).filter (fun d =>
    match d.time with
    | some t => decide (todayStart ≤ t)
    | none => false)

/-- Source `RedisCacheManager.get_cached_order_book_data` (cache.py:127-149). -/
def get_cached_order_book_data (symbol : String) (cs : CacheState) :
    Option CacheData :=
  cs.latest symbol

/-- Source `ConnectionManager.cache_orderbook_data` (main.py:275-292): build the
payload `{symbol, timestamp: orderbook_data.get("timestamp"), data,
cached_at: utcnow()}` - with no `time` key - and store it.  Its own
`try/except` catches cache-backend errors; the backend is modelled healthy,
which is the only case the claims quantify over. -/
def cache_orderbook_data (symbol : String) (od : OrderBookData) (now : Int)
    (cs : CacheState) : CacheState :=
  cache_order_book_data symbol
    { symbol := symbol, timestamp := od.timestamp, data := od
      cached_at := now, time := none } cs

/-! ## The ingestion entry point -/

structure IngestOutcome where
  persisted : Option DbRecord
  cache : CacheState
  reg : RegState
  delivered : List String
  failed : List String

/-- Source `ConnectionManager.broadcast_orderbook` (main.py:198-214): store to the
database, cache, then broadcast to the symbol's subscribers, in that order.
Each of the three steps contains its own error handling, so the composite is
a total function of the snapshot and the failure flags. -/
def broadcast_orderbook (dbOk : Bool) (sendOk : String → Bool)
    (symbol : String) (od : OrderBookData) (now : Int) (cs : CacheState)
    (st : RegState) : IngestOutcome :=
  let persisted := store_orderbook_data dbOk symbol od
  let cs' := cache_orderbook_data symbol od now cs
  let r := broadcast_to_symbol sendOk symbol st
  { persisted := persisted, cache := cs', reg := r.1
    delivered := r.2.1, failed := r.2.2 }

/-! ## Basic lemmas about the set/map primitives -/

theorem mem_sInsert {x y : String} {l : List String} :
    y ∈ sInsert x l ↔ y = x ∨ y ∈ l := by
  unfold sInsert
  by_cases h : x ∈ l
  · rw [if_pos h]
    constructor
    · exact Or.inr
    · rintro (rfl | hy)
      · exact h
      · exact hy
  · rw [if_neg h]
    exact List.mem_cons

theorem mem_sErase {x y : String} {l : List String} :
    y ∈ sErase x l ↔ y ∈ l ∧ y ≠ x := by
  unfold sErase
  simp [List.mem_filter]

theorem sInsert_ne_nil (x : String) (l : List String) : sInsert x l ≠ [] := by
  unfold sInsert
  by_cases h : x ∈ l
  · rw [if_pos h]
    rintro rfl
    exact List.not_mem_nil x h
  · rw [if_neg h]
    exact List.cons_ne_nil _ _

theorem sErase_idem (x : String) (l : List String) :
    sErase x (sErase x l) = sErase x l := by
  refine List.filter_eq_self.mpr ?_
  intro a ha
  rcases mem_sErase.mp ha with ⟨_, hne⟩
  simpa using hne

/-! ## The value-level effect of the discard-and-delete-if-empty pattern -/

theorem dropValue_noEmpty {c : String} {o : Option (List String)}
    {l : List String} (h : dropValue c o = some l) : l ≠ [] := by
  cases o with
  | none => simp [dropValue] at h
  | some cs =>
      unfold dropValue at h
      by_cases he : sErase c cs = []
      · simp [he] at h
      · simp only [if_neg he, Option.some.injEq] at h
        exact h ▸ he

theorem dropValue_not_mem (c : String) (o : Option (List String)) :
    ¬ ∃ l, dropValue c o = some l ∧ c ∈ l := by
  rintro ⟨l, hl, hc⟩
  cases o with
  | none => simp [dropValue] at hl
  | some cs =>
      unfold dropValue at hl
      by_cases he : sErase c cs = []
      · simp [he] at hl
      · simp only [if_neg he, Option.some.injEq] at hl
        subst hl
        exact (mem_sErase.mp hc).2 rfl

theorem dropValue_mem_ne {c x : String} (hx : x ≠ c) (o : Option (List String)) :
    (∃ l, dropValue c o = some l ∧ x ∈ l) ↔ (∃ l, o = some l ∧ x ∈ l) := by
  cases o with
  | none => simp [dropValue]
  | some cs =>
      unfold dropValue
      by_cases he : sErase c cs = []
      · simp only [he, if_pos rfl]
        constructor
        · rintro ⟨l, hl, _⟩
          exact absurd hl (by simp)
        · rintro ⟨l, hl, hx'⟩
          cases hl
          have : x ∈ sErase c cs := mem_sErase.mpr ⟨hx', hx⟩
          rw [he] at this
          exact absurd this (List.not_mem_nil x)
      · simp only [if_neg he]
        constructor
        · rintro ⟨l, hl, hx'⟩
          cases hl
          exact ⟨cs, rfl, (mem_sErase.mp hx').1⟩
        · rintro ⟨l, hl, hx'⟩
          cases hl
          exact ⟨_, rfl, mem_sErase.mpr ⟨hx', hx⟩⟩

theorem dropValue_idem (c : String) (o : Option (List String)) :
    dropValue c (dropValue c o) = dropValue c o := by
  cases o with
  | none => rfl
  | some cs =>
      unfold dropValue
      by_cases he : sErase c cs = []
      · simp [he]
      · simp only [if_neg he]
        rw [sErase_idem, if_neg he]

theorem dropFromSymbol_apply (c s : String) (m : String → Option (List String))
    (k : String) :
    dropFromSymbol c s m k = if k = s then dropValue c (m s) else m k := by
  unfold dropFromSymbol dropValue
  cases hm : m s with
  | none =>
      by_cases hk : k = s
      · subst hk
        simp [hm]
      · simp [hk]
  | some cs =>
      by_cases he : sErase c cs = []
      · simp only [he, if_pos rfl]
        unfold dErase
        by_cases hk : k = s <;> simp [hk]
      · simp only [if_neg he]
        unfold dInsert
        by_cases hk : k = s <;> simp [hk]

theorem dropAll_apply (c : String) (syms : List String)
    (m : String → Option (List String)) (k : String) :
    dropAll c syms m k = if k ∈ syms then dropValue c (m k) else m k := by
  induction syms generalizing m with
  | nil => simp [dropAll]
  | cons s rest ih =>
      show dropAll c rest (dropFromSymbol c s m) k = _
      rw [ih]
      by_cases hk : k ∈ rest
      · rw [if_pos hk, if_pos (List.mem_cons.mpr (Or.inr hk)), dropFromSymbol_apply]
        by_cases hks : k = s
        · subst hks
          rw [if_pos rfl, dropValue_idem]
        · rw [if_neg hks]
      · rw [if_neg hk, dropFromSymbol_apply]
        by_cases hks : k = s
        · subst hks
          rw [if_pos rfl, if_pos (List.mem_cons.mpr (Or.inl rfl))]
        · rw [if_neg hks, if_neg (by simp [List.mem_cons, hks, hk])]

theorem dropFromSymbol_eq_dropAll (c s : String)
    (m : String → Option (List String)) :
    dropFromSymbol c s m = dropAll c [s] m := rfl

theorem dropAll_noEmpty {c : String} {syms : List String}
    {m : String → Option (List String)}
    (h : ∀ k l, m k = some l → l ≠ []) :
    ∀ k l, dropAll c syms m k = some l → l ≠ [] := by
  intro k l hk
  rw [dropAll_apply] at hk
  split at hk
  · exact dropValue_noEmpty hk
  · exact h k l hk

/-! ## mem2 rewriting lemmas -/

theorem mem2_dInsert (k : String) (v : List String)
    (m : String → Option (List String)) (k' x' : String) :
    mem2 (dInsert k v m) k' x' ↔
      ((k' = k ∧ x' ∈ v) ∨ (k' ≠ k ∧ mem2 m k' x')) := by
  unfold mem2 dInsert
  by_cases h : k' = k <;> simp [h]

theorem mem2_dErase (k : String) (m : String → Option (List String))
    (k' x' : String) :
    mem2 (dErase k m) k' x' ↔ (k' ≠ k ∧ mem2 m k' x') := by
  unfold mem2 dErase
  by_cases h : k' = k <;> simp [h]

theorem mem_getD_iff {o : Option (List String)} {x : String} :
    x ∈ o.getD [] ↔ ∃ l, o = some l ∧ x ∈ l := by
  cases o <;> simp

theorem dInsert_self (k : String) (v : α) (m : String → Option α) :
    dInsert k v m k = some v := by
  unfold dInsert
  rw [if_pos rfl]

theorem dInsert_ne {k k' : String} (h : k' ≠ k) (v : α)
    (m : String → Option α) : dInsert k v m k' = m k' := by
  unfold dInsert
  rw [if_neg h]

theorem mem2_dropAll_ne {c x : String} (hx : x ≠ c) (syms : List String)
    (m : String → Option (List String)) (k : String) :
    mem2 (dropAll c syms m) k x ↔ mem2 m k x := by
  unfold mem2
  simp only [dropAll_apply]
  by_cases hk : k ∈ syms
  · simp only [if_pos hk]
    exact dropValue_mem_ne hx (m k)
  · simp only [if_neg hk]

theorem mem2_dropAll_self (c : String) (syms : List String)
    (m : String → Option (List String)) (k : String) :
    mem2 (dropAll c syms m) k c ↔ (mem2 m k c ∧ k ∉ syms) := by
  unfold mem2
  simp only [dropAll_apply]
  by_cases hk : k ∈ syms
  · simp only [if_pos hk]
    constructor
    · intro h
      exact absurd h (dropValue_not_mem c (m k))
    · rintro ⟨_, h⟩
      exact absurd hk h
  · simp [hk]

/-! ## Field-level descriptions of the registry operations -/

theorem connect_symSubs (c : String) (st : RegState) :
    (connect c st).symSubs = st.symSubs := rfl

theorem disconnect_active (c : String) (st : RegState) :
    (disconnect c st).active = sErase c st.active := by
  unfold disconnect
  cases st.cliSubs c <;> rfl

theorem disconnect_symSubs_none {c : String} {st : RegState}
    (hc : st.cliSubs c = none) :
    (disconnect c st).symSubs = st.symSubs := by
  unfold disconnect
  rw [hc]

theorem disconnect_symSubs_some {c : String} {st : RegState}
    {syms : List String} (hc : st.cliSubs c = some syms) :
    (disconnect c st).symSubs = dropAll c syms st.symSubs := by
  unfold disconnect dropAll
  rw [hc]

theorem disconnect_cliSubs (c : String) (st : RegState) (x : String) :
    (disconnect c st).cliSubs x = if x = c then none else st.cliSubs x := by
  unfold disconnect
  cases hc : st.cliSubs c with
  | none =>
      show st.cliSubs x = _
      by_cases hx : x = c
      · rw [if_pos hx, hx, hc]
      · rw [if_neg hx]
  | some syms =>
      show dErase c st.cliSubs x = _
      rfl

theorem disconnect_cliSubs_mem (c : String) (st : RegState) (c' s : String) :
    mem2 (disconnect c st).cliSubs c' s ↔ (c' ≠ c ∧ mem2 st.cliSubs c' s) := by
  unfold mem2
  simp only [disconnect_cliSubs]
  by_cases hc : c' = c <;> simp [hc]

theorem subscribe_fst_of_not_active {c : String} {st : RegState}
    (hc : c ∉ st.active) (s : String) : (subscribe c s st).1 = st := by
  unfold subscribe
  rw [if_neg hc]

theorem subscribe_fst_of_active {c : String} {st : RegState}
    (hc : c ∈ st.active) {ss : List String} (hss : st.cliSubs c = some ss)
    (s : String) :
    (subscribe c s st).1 =
      { st with
        symSubs := dInsert s (sInsert c ((st.symSubs s).getD [])) st.symSubs
        cliSubs := dInsert c (sInsert s ss) st.cliSubs } := by
  unfold subscribe
  rw [if_pos hc, hss]

theorem unsubscribe_active (c s : String) (st : RegState) :
    (unsubscribe c s st).active = st.active := rfl

theorem unsubscribe_symSubs (c s : String) (st : RegState) :
    (unsubscribe c s st).symSubs = dropAll c [s] st.symSubs := rfl

theorem mem2_eq_some {m : String → Option (List String)} {k : String}
    {l : List String} (h : m k = some l) (x : String) :
    mem2 m k x ↔ x ∈ l := by
  unfold mem2
  simp [h]

theorem mem2_eq_none {m : String → Option (List String)} {k : String}
    (h : m k = none) (x : String) : ¬ mem2 m k x := by
  unfold mem2
  simp [h]

theorem unsubscribe_cliSubs_self (c s : String) (st : RegState) :
    (unsubscribe c s st).cliSubs c = (st.cliSubs c).map (fun ss => sErase s ss) := by
  show (if c = c then _ else _) = _
  rw [if_pos rfl]

theorem unsubscribe_cliSubs_ne {c c' : String} (hc : c' ≠ c) (s : String)
    (st : RegState) :
    (unsubscribe c s st).cliSubs c' = st.cliSubs c' := by
  show (if c' = c then _ else _) = _
  rw [if_neg hc]

theorem unsubscribe_cliSubs_mem (c s : String) (st : RegState) (c' s' : String) :
    mem2 (unsubscribe c s st).cliSubs c' s' ↔
      (mem2 st.cliSubs c' s' ∧ ¬(c' = c ∧ s' = s)) := by
  by_cases hc : c' = c
  · subst hc
    cases hcc : st.cliSubs c' with
    | none =>
        have h1 : (unsubscribe c' s st).cliSubs c' = none := by
          rw [unsubscribe_cliSubs_self, hcc]
          rfl
        simp [mem2_eq_none h1, mem2_eq_none hcc]
    | some ss =>
        have h1 : (unsubscribe c' s st).cliSubs c' = some (sErase s ss) := by
          rw [unsubscribe_cliSubs_self, hcc]
          rfl
        rw [mem2_eq_some h1, mem2_eq_some hcc, mem_sErase]
        constructor
        · rintro ⟨hin, hne⟩
          refine ⟨hin, ?_⟩
          rintro ⟨-, rfl⟩
          exact hne rfl
        · rintro ⟨hin, hno⟩
          exact ⟨hin, fun hss => hno ⟨rfl, hss⟩⟩
  · rw [show mem2 (unsubscribe c s st).cliSubs c' s' ↔ mem2 st.cliSubs c' s' from by
      unfold mem2
      simp only [unsubscribe_cliSubs_ne hc]]
    simp [hc]

/-! ## Registry invariants

`Inv` collects the structural facts that hold in every state reachable from
the initial manager: no symbol is mapped to an empty subscriber set (empty
sets are deleted eagerly), a symbol recorded in a client's subscription set
has that client in its subscriber set, and a client is in
`active_connections` exactly when it has a `client_subscriptions` entry.
`Consistent` is the full bidirectional agreement of the two indexes. -/

theorem inv_init : Inv RegState.init := by
  constructor
  · intro s cs h
    exact absurd h (by simp [RegState.init])
  · intro c s h
    exact absurd h (mem2_eq_none rfl s)
  · intro c
    simp [RegState.init]

theorem consistent_init : Consistent RegState.init := by
  intro c s
  constructor
  · intro h
    exact absurd h (mem2_eq_none rfl c)
  · intro h
    exact absurd h (mem2_eq_none rfl s)

theorem inv_connect {st : RegState} (h : Inv st) (c : String) :
    Inv (connect c st) := by
  constructor
  · exact h.noEmpty
  · intro c' s hm
    rcases (mem2_dInsert c [] st.cliSubs c' s).mp hm with ⟨_, hx⟩ | ⟨_, hm'⟩
    · exact absurd hx (List.not_mem_nil s)
    · exact h.cliToSym c' s hm'
  · intro x
    show x ∈ sInsert c st.active ↔ (dInsert c [] st.cliSubs x).isSome
    rw [mem_sInsert]
    unfold dInsert
    by_cases hx : x = c
    · simp [hx]
    · simp [hx, h.activeDom x]

theorem inv_disconnect {st : RegState} (h : Inv st) (c : String) :
    Inv (disconnect c st) := by
  cases hc : st.cliSubs c with
  | none =>
      constructor
      · rw [disconnect_symSubs_none hc]
        exact h.noEmpty
      · intro c' s hm
        rw [disconnect_symSubs_none hc]
        refine h.cliToSym c' s ?_
        exact ((disconnect_cliSubs_mem c st c' s).mp hm).2
      · intro x
        rw [disconnect_active, disconnect_cliSubs]
        rw [mem_sErase]
        by_cases hx : x = c
        · simp [hx, hc]
        · simp [hx, h.activeDom x]
  | some syms =>
      constructor
      · rw [disconnect_symSubs_some hc]
        exact dropAll_noEmpty h.noEmpty
      · intro c' s hm
        rcases (disconnect_cliSubs_mem c st c' s).mp hm with ⟨hne, hm'⟩
        rw [disconnect_symSubs_some hc, mem2_dropAll_ne hne]
        exact h.cliToSym c' s hm'
      · intro x
        rw [disconnect_active, disconnect_cliSubs]
        rw [mem_sErase]
        by_cases hx : x = c
        · simp [hx]
        · simp [hx, h.activeDom x]

theorem inv_subscribe {st : RegState} (h : Inv st) (c s : String) :
    Inv (subscribe c s st).1 := by
  by_cases hc : c ∈ st.active
  · rcases Option.isSome_iff_exists.mp ((h.activeDom c).mp hc) with ⟨ss, hss⟩
    rw [subscribe_fst_of_active hc hss]
    constructor
    · intro s' cs hcs
      dsimp only at hcs
      by_cases hs' : s' = s
      · rw [hs', dInsert_self] at hcs
        injection hcs with h2
        exact h2 ▸ sInsert_ne_nil _ _
      · rw [dInsert_ne hs'] at hcs
        exact h.noEmpty s' cs hcs
    · intro c' s' hm
      dsimp only at hm ⊢
      have hmono : ∀ c'' s'', mem2 st.symSubs s'' c'' →
          mem2 (dInsert s (sInsert c ((st.symSubs s).getD [])) st.symSubs) s'' c'' := by
        intro c'' s'' hold
        by_cases hseq : s'' = s
        · refine (mem2_dInsert _ _ _ _ _).mpr (Or.inl ⟨hseq, ?_⟩)
          rcases hold with ⟨cs, hcs, hcmem⟩
          rw [hseq] at hcs
          rw [hcs]
          exact mem_sInsert.mpr (Or.inr hcmem)
        · exact (mem2_dInsert _ _ _ _ _).mpr (Or.inr ⟨hseq, hold⟩)
      rcases (mem2_dInsert c (sInsert s ss) st.cliSubs c' s').mp hm with
        ⟨he, hx⟩ | ⟨_, hm'⟩
      · rcases mem_sInsert.mp hx with heq | hs'
        · refine (mem2_dInsert _ _ _ _ _).mpr (Or.inl ⟨heq, ?_⟩)
          rw [he]
          exact mem_sInsert.mpr (Or.inl rfl)
        · refine hmono c' s' (h.cliToSym c' s' ⟨ss, ?_, hs'⟩)
          rw [he]
          exact hss
      · exact hmono c' s' (h.cliToSym c' s' hm')
    · intro x
      show x ∈ st.active ↔ (dInsert c (sInsert s ss) st.cliSubs x).isSome
      unfold dInsert
      by_cases hx : x = c
      · simp [hx, hc]
      · simp [hx, h.activeDom x]
  · rw [subscribe_fst_of_not_active hc]
    exact h

theorem inv_unsubscribe {st : RegState} (h : Inv st) (c s : String) :
    Inv (unsubscribe c s st) := by
  constructor
  · intro s' cs hcs
    rw [unsubscribe_symSubs] at hcs
    exact dropAll_noEmpty h.noEmpty s' cs hcs
  · intro c' s' hm
    rcases (unsubscribe_cliSubs_mem c s st c' s').mp hm with ⟨hm', hno⟩
    rw [unsubscribe_symSubs]
    by_cases hcc : c' = c
    · subst hcc
      rw [mem2_dropAll_self]
      refine ⟨h.cliToSym c' s' hm', ?_⟩
      intro hmem
      rcases List.mem_singleton.mp hmem with rfl
      exact hno ⟨rfl, rfl⟩
    · rw [mem2_dropAll_ne hcc]
      exact h.cliToSym c' s' hm'
  · intro x
    rw [unsubscribe_active]
    by_cases hx : x = c
    · subst hx
      rw [h.activeDom x, unsubscribe_cliSubs_self]
      cases st.cliSubs x <;> simp
    · rw [unsubscribe_cliSubs_ne hx, h.activeDom x]

theorem consistent_connect {st : RegState} (h : Inv st) (hcons : Consistent st)
    {c : String} (hc : c ∉ st.active) : Consistent (connect c st) := by
  intro c' s
  rw [connect_symSubs]
  show mem2 st.symSubs s c' ↔ mem2 (dInsert c [] st.cliSubs) c' s
  rw [mem2_dInsert]
  by_cases hcc : c' = c
  · constructor
    · intro hm
      rcases (hcons c' s).mp hm with ⟨ss, hss, _⟩
      refine absurd ((h.activeDom c').mpr (by simp [hss])) ?_
      rw [hcc]
      exact hc
    · rintro (⟨_, hmem⟩ | ⟨hne, _⟩)
      · exact absurd hmem (List.not_mem_nil s)
      · exact absurd hcc hne
  · constructor
    · intro hm
      exact Or.inr ⟨hcc, (hcons c' s).mp hm⟩
    · rintro (⟨he, _⟩ | ⟨_, hm⟩)
      · exact absurd he hcc
      · exact (hcons c' s).mpr hm

theorem consistent_disconnect {st : RegState} (hcons : Consistent st)
    (c : String) : Consistent (disconnect c st) := by
  intro c' s
  rw [disconnect_cliSubs_mem]
  cases hc : st.cliSubs c with
  | none =>
      rw [disconnect_symSubs_none hc]
      by_cases hcc : c' = c
      · constructor
        · intro hm
          rcases (hcons c' s).mp hm with ⟨ss, hss, _⟩
          rw [hcc, hc] at hss
          exact absurd hss (by simp)
        · rintro ⟨hne, _⟩
          exact absurd hcc hne
      · constructor
        · intro hm
          exact ⟨hcc, (hcons c' s).mp hm⟩
        · rintro ⟨_, hm⟩
          exact (hcons c' s).mpr hm
  | some syms =>
      rw [disconnect_symSubs_some hc]
      by_cases hcc : c' = c
      · subst hcc
        rw [mem2_dropAll_self]
        constructor
        · rintro ⟨hm, hns⟩
          rcases (hcons c' s).mp hm with ⟨ss, hss, hmem⟩
          rw [hc] at hss
          injection hss with hss
          exact absurd (hss ▸ hmem) hns
        · rintro ⟨hne, _⟩
          exact absurd rfl hne
      · rw [mem2_dropAll_ne hcc]
        constructor
        · intro hm
          exact ⟨hcc, (hcons c' s).mp hm⟩
        · rintro ⟨_, hm⟩
          exact (hcons c' s).mpr hm

theorem consistent_subscribe {st : RegState} (h : Inv st)
    (hcons : Consistent st) (c s : String) :
    Consistent (subscribe c s st).1 := by
  by_cases hc : c ∈ st.active
  · rcases Option.isSome_iff_exists.mp ((h.activeDom c).mp hc) with ⟨ss, hss⟩
    rw [subscribe_fst_of_active hc hss]
    intro c' s'
    dsimp only
    rw [mem2_dInsert, mem2_dInsert]
    by_cases hseq : s' = s <;> by_cases hcc : c' = c
    · subst hseq
      subst hcc
      constructor
      · intro _
        exact Or.inl ⟨rfl, mem_sInsert.mpr (Or.inl rfl)⟩
      · intro _
        exact Or.inl ⟨rfl, mem_sInsert.mpr (Or.inl rfl)⟩
    · subst hseq
      constructor
      · rintro (⟨_, hmem⟩ | ⟨hne, _⟩)
        · rcases mem_sInsert.mp hmem with heq | hmem'
          · exact absurd heq hcc
          · rcases mem_getD_iff.mp hmem' with ⟨cs, hcs, hc'⟩
            exact Or.inr ⟨hcc, (hcons c' s').mp ⟨cs, hcs, hc'⟩⟩
        · exact absurd rfl hne
      · rintro (⟨he, _⟩ | ⟨_, hm⟩)
        · exact absurd he hcc
        · refine Or.inl ⟨rfl, mem_sInsert.mpr (Or.inr ?_)⟩
          exact mem_getD_iff.mpr ((hcons c' s').mpr hm)
    · subst hcc
      constructor
      · rintro (⟨he, _⟩ | ⟨_, hm⟩)
        · exact absurd he hseq
        · rcases (hcons c' s').mp hm with ⟨l, hl, hsl⟩
          rw [hss] at hl
          injection hl with hl
          exact Or.inl ⟨rfl, mem_sInsert.mpr (Or.inr (hl ▸ hsl))⟩
      · rintro (⟨_, hmem⟩ | ⟨hne, _⟩)
        · rcases mem_sInsert.mp hmem with heq | hmem'
          · exact absurd heq hseq
          · exact Or.inr ⟨hseq, (hcons c' s').mpr ⟨ss, hss, hmem'⟩⟩
        · exact absurd rfl hne
    · constructor
      · rintro (⟨he, _⟩ | ⟨_, hm⟩)
        · exact absurd he hseq
        · exact Or.inr ⟨hcc, (hcons c' s').mp hm⟩
      · rintro (⟨he, _⟩ | ⟨_, hm⟩)
        · exact absurd he hcc
        · exact Or.inr ⟨hseq, (hcons c' s').mpr hm⟩
  · rw [subscribe_fst_of_not_active hc]
    exact hcons

theorem consistent_unsubscribe {st : RegState} (hcons : Consistent st)
    (c s : String) : Consistent (unsubscribe c s st) := by
  intro c' s'
  rw [unsubscribe_symSubs, unsubscribe_cliSubs_mem]
  by_cases hcc : c' = c
  · subst hcc
    rw [mem2_dropAll_self]
    constructor
    · rintro ⟨hm, hns⟩
      refine ⟨(hcons c' s').mp hm, ?_⟩
      rintro ⟨-, rfl⟩
      exact hns (List.mem_singleton.mpr rfl)
    · rintro ⟨hm, hno⟩
      refine ⟨(hcons c' s').mpr hm, ?_⟩
      intro hmem
      exact hno ⟨rfl, List.mem_singleton.mp hmem⟩
  · rw [mem2_dropAll_ne hcc]
    constructor
    · intro hm
      exact ⟨(hcons c' s').mp hm, by rintro ⟨he, -⟩; exact hcc he⟩
    · rintro ⟨hm, -⟩
      exact (hcons c' s').mpr hm

theorem inv_applyOp {st : RegState} (h : Inv st) (op : Op) :
    Inv (applyOp st op) := by
  cases op with
  | connect c => exact inv_connect h c
  | disconnect c => exact inv_disconnect h c
  | subscribe c s => exact inv_subscribe h c s
  | unsubscribe c s => exact inv_unsubscribe h c s

theorem consistent_applyOp {st : RegState} (h : Inv st) (hcons : Consistent st)
    (op : Op)
    (hfresh : match op with | .connect c => c ∉ st.active | _ => True) :
    Consistent (applyOp st op) := by
  cases op with
  | connect c => exact consistent_connect h hcons hfresh
  | disconnect c => exact consistent_disconnect hcons c
  | subscribe c s => exact consistent_subscribe h hcons c s
  | unsubscribe c s => exact consistent_unsubscribe hcons c s

theorem inv_foldl (ops : List Op) {st : RegState} (h : Inv st) :
    Inv (ops.foldl applyOp st) := by
  induction ops generalizing st with
  | nil => exact h
  | cons op ops ih => exact ih (inv_applyOp h op)

theorem consistent_foldl (ops : List Op) {st : RegState} (h : Inv st)
    (hcons : Consistent st) (hfresh : FreshRun st ops = true) :
    Consistent (ops.foldl applyOp st) := by
  induction ops generalizing st with
  | nil => exact hcons
  | cons op ops ih =>
      unfold FreshRun at hfresh
      rw [Bool.and_eq_true] at hfresh
      refine ih (inv_applyOp h op) (consistent_applyOp h hcons op ?_) hfresh.2
      cases op with
      | connect c =>
          have := hfresh.1
          simp only [Bool.not_eq_true'] at this
          exact of_decide_eq_false this
      | disconnect c => trivial
      | subscribe c s => trivial
      | unsubscribe c s => trivial

theorem runOps_inv (ops : List Op) : Inv (runOps ops) :=
  inv_foldl ops inv_init

theorem runOps_consistent (ops : List Op)
    (hfresh : FreshRun RegState.init ops = true) : Consistent (runOps ops) :=
  consistent_foldl ops inv_init consistent_init hfresh

/-! ## Fan-out support lemmas -/

theorem disconnect_symSubs_mem_ne {c c' : String} (hne : c' ≠ c)
    (st : RegState) (s : String) :
    mem2 (disconnect c st).symSubs s c' ↔ mem2 st.symSubs s c' := by
  cases hc : st.cliSubs c with
  | none => rw [disconnect_symSubs_none hc]
  | some syms => rw [disconnect_symSubs_some hc, mem2_dropAll_ne hne]

theorem cleared_disconnect {st : RegState} {c : String} (h : Cleared st c)
    (d : String) : Cleared (disconnect d st) c := by
  constructor
  · rw [disconnect_active]
    intro hmem
    exact h.1 (mem_sErase.mp hmem).1
  · intro s
    by_cases hcd : c = d
    · subst hcd
      cases hc : st.cliSubs c with
      | none =>
          rw [disconnect_symSubs_none hc]
          exact h.2 s
      | some syms =>
          rw [disconnect_symSubs_some hc]
          intro hm
          exact h.2 s ((mem2_dropAll_self c syms st.symSubs s).mp hm).1
    · rw [disconnect_symSubs_mem_ne hcd]
      exact h.2 s

theorem disconnect_clears {st : RegState} (hcons : Consistent st)
    (c : String) : Cleared (disconnect c st) c := by
  constructor
  · rw [disconnect_active]
    intro hmem
    exact (mem_sErase.mp hmem).2 rfl
  · intro s
    cases hc : st.cliSubs c with
    | none =>
        rw [disconnect_symSubs_none hc]
        intro hm
        exact mem2_eq_none hc s ((hcons c s).mp hm)
    | some syms =>
        rw [disconnect_symSubs_some hc]
        intro hm
        rcases (mem2_dropAll_self c syms st.symSubs s).mp hm with ⟨hm', hns⟩
        rcases (hcons c s).mp hm' with ⟨l, hl, hsl⟩
        rw [hc] at hl
        injection hl with hl
        exact hns (hl ▸ hsl)

theorem cleared_foldl_disconnect {st : RegState} {c : String}
    (h : Cleared st c) (fs : List String) :
    Cleared (fs.foldl (fun acc x => disconnect x acc) st) c := by
  induction fs generalizing st with
  | nil => exact h
  | cons f rest ih =>
      rw [List.foldl_cons]
      exact ih (cleared_disconnect h f)

theorem foldl_disconnect_clears {st : RegState} (hinv : Inv st)
    (hcons : Consistent st) (fs : List String) :
    ∀ c ∈ fs, Cleared (fs.foldl (fun acc x => disconnect x acc) st) c := by
  induction fs generalizing st with
  | nil =>
      intro c hc
      exact absurd hc (List.not_mem_nil c)
  | cons f rest ih =>
      intro c hc
      rw [List.foldl_cons]
      rcases List.mem_cons.mp hc with rfl | hc'
      · exact cleared_foldl_disconnect (disconnect_clears hcons c) rest
      · exact ih (inv_disconnect hinv f) (consistent_disconnect hcons f) c hc'

theorem broadcast_delivered_eq {sendOk : String → Bool} {sym : String}
    {st : RegState} {subs : List String} (hs : st.symSubs sym = some subs) :
    (broadcast_to_symbol sendOk sym st).2.1 =
      subs.filter (fun c => decide (c ∈ st.active) && sendOk c) := by
  unfold broadcast_to_symbol
  rw [hs]

theorem broadcast_failed_eq {sendOk : String → Bool} {sym : String}
    {st : RegState} {subs : List String} (hs : st.symSubs sym = some subs) :
    (broadcast_to_symbol sendOk sym st).2.2 =
      subs.filter (fun c => !(decide (c ∈ st.active) && sendOk c)) := by
  unfold broadcast_to_symbol
  rw [hs]

theorem broadcast_reg_eq {sendOk : String → Bool} {sym : String}
    {st : RegState} {subs : List String} (hs : st.symSubs sym = some subs) :
    (broadcast_to_symbol sendOk sym st).1 =
      (subs.filter (fun c => !(decide (c ∈ st.active) && sendOk c))).foldl
        (fun acc c => disconnect c acc) st := by
  unfold broadcast_to_symbol
  rw [hs]

theorem RegState.ext_of {st st' : RegState} (h1 : st.active = st'.active)
    (h2 : st.symSubs = st'.symSubs) (h3 : st.cliSubs = st'.cliSubs) :
    st = st' := by
  cases st
  cases st'
  cases h1
  cases h2
  cases h3
  rfl

theorem sErase_of_not_mem {x : String} {l : List String} (h : x ∉ l) :
    sErase x l = l := by
  refine List.filter_eq_self.mpr ?_
  intro a ha
  have hne : a ≠ x := fun heq => h (heq ▸ ha)
  simp [hne]

theorem dropFromSymbol_idem (c s : String)
    (m : String → Option (List String)) :
    dropFromSymbol c s (dropFromSymbol c s m) = dropFromSymbol c s m := by
  funext x
  simp only [dropFromSymbol_apply]
  by_cases hx : x = s
  · subst hx
    simp [dropValue_idem]
  · simp [hx]

/-! ## Claims about the subscription registry -/

/-- C10 (amended): every registry state reachable by connect / subscribe /
unsubscribe / disconnect sequences satisfies `Inv`: no instrument maps to an
empty subscriber set, a client is in `active_connections` exactly when it has
a `client_subscriptions` entry, and every symbol in a client's subscription
set has that client in its subscriber set.  Full bidirectional consistency of
the two index directions additionally holds for every run in which no
`connect` re-uses a currently connected client id. -/
theorem registry_reachable_invariant (ops : List Op) :
    Inv (runOps ops) ∧
      (FreshRun RegState.init ops = true → Consistent (runOps ops)) :=
  ⟨runOps_inv ops, runOps_consistent ops⟩

theorem registry_reachable_invariant_witness :
    Inv (runOps [Op.connect "a", Op.subscribe "a" "x"]) ∧
      Consistent (runOps [Op.connect "a", Op.subscribe "a" "x"]) :=
  ⟨(registry_reachable_invariant [Op.connect "a", Op.subscribe "a" "x"]).1,
    (registry_reachable_invariant [Op.connect "a", Op.subscribe "a" "x"]).2
      (by decide)⟩

/-- C10 counterexample: the claim asserts bidirectional index consistency in
every reachable state, but `connect` on an already-connected id resets
`client_subscriptions[client_id]` to the empty set without touching
`symbol_subscriptions` (main.py:81-85), so after
`connect "a"; subscribe "a" "x"; connect "a"` the client is still in symbol
`"x"`'s subscriber set while its own subscription set is empty. -/
theorem registry_consistency_counterexample :
    ¬ Consistent (runOps [Op.connect "a", Op.subscribe "a" "x",
      Op.connect "a"]) := by
  intro h
  have hm : mem2 (runOps [Op.connect "a", Op.subscribe "a" "x",
      Op.connect "a"]).cliSubs "a" "x" :=
    (h "a" "x").mp (by decide)
  exact absurd hm (by decide)

/-- C9: `unsubscribe_from_symbol` is idempotent on the registry state: on a
state whose subscriber set for the symbol is not the (unrepresentable in a
well-maintained registry) empty set, unsubscribing an absent pair changes
nothing, and unsubscribing the same pair twice always equals unsubscribing it
once. -/
theorem unsubscribe_idempotent (c s : String) (st : RegState) :
    (st.symSubs s ≠ some [] → ¬ mem2 st.symSubs s c →
      ¬ mem2 st.cliSubs c s → unsubscribe c s st = st) ∧
    unsubscribe c s (unsubscribe c s st) = unsubscribe c s st := by
  constructor
  · intro hne habs1 habs2
    refine RegState.ext_of rfl ?_ ?_
    · funext x
      show dropFromSymbol c s st.symSubs x = st.symSubs x
      rw [dropFromSymbol_apply]
      by_cases hx : x = s
      · rw [hx, if_pos rfl]
        cases hm : st.symSubs s with
        | none => rfl
        | some cs =>
            have hcm : c ∉ cs := fun hmem => habs1 ⟨cs, hm, hmem⟩
            unfold dropValue
            dsimp only
            rw [sErase_of_not_mem hcm,
              if_neg (fun hnil : cs = [] => hne (by rw [hm, hnil]))]
      · rw [if_neg hx]
    · funext x
      show (if x = c then (st.cliSubs c).map (fun ss => sErase s ss)
          else st.cliSubs x) = st.cliSubs x
      by_cases hx : x = c
      · rw [hx, if_pos rfl]
        cases hm : st.cliSubs c with
        | none => rfl
        | some ss =>
            have hsm : s ∉ ss := fun hmem => habs2 ⟨ss, hm, hmem⟩
            simp [sErase_of_not_mem hsm]
      · rw [if_neg hx]
  · refine RegState.ext_of rfl ?_ ?_
    · show dropFromSymbol c s (dropFromSymbol c s st.symSubs) =
        dropFromSymbol c s st.symSubs
      exact dropFromSymbol_idem c s st.symSubs
    · funext x
      by_cases hx : x = c
      · rw [hx,
          show (unsubscribe c s (unsubscribe c s st)).cliSubs c =
            ((unsubscribe c s st).cliSubs c).map (fun ss => sErase s ss) from
            unsubscribe_cliSubs_self c s (unsubscribe c s st),
          unsubscribe_cliSubs_self c s st]
        cases st.cliSubs c with
        | none => rfl
        | some ss => simp [sErase_idem]
      · rw [unsubscribe_cliSubs_ne hx, unsubscribe_cliSubs_ne hx]

theorem unsubscribe_idempotent_witness :
    unsubscribe "a" "x" RegState.init = RegState.init ∧
      unsubscribe "a" "x" (unsubscribe "a" "x" RegState.init) =
        unsubscribe "a" "x" RegState.init :=
  ⟨(unsubscribe_idempotent "a" "x" RegState.init).1 (by decide) (by decide)
      (by decide),
    (unsubscribe_idempotent "a" "x" RegState.init).2⟩

/-- C6: disconnecting a connection that holds subscriptions `syms` removes it
from `active_connections`, deletes its own `client_subscriptions` entry,
the subscriber sets it belonged to are exactly those of the symbols in
`syms` and it is removed from all of them, while the subscriber set of every
other symbol, the subscription set of every other client, and every other
client's memberships are untouched. -/
theorem disconnect_exact_cleanup (c : String) (st : RegState)
    (syms : List String) (hinv : Inv st) (hcons : Consistent st)
    (hc : st.cliSubs c = some syms) :
    (disconnect c st).active = sErase c st.active ∧
    (disconnect c st).cliSubs c = none ∧
    (∀ s, mem2 st.symSubs s c ↔ s ∈ syms) ∧
    (∀ s, ¬ mem2 (disconnect c st).symSubs s c) ∧
    (∀ s, s ∉ syms → (disconnect c st).symSubs s = st.symSubs s) ∧
    (∀ c', c' ≠ c → (disconnect c st).cliSubs c' = st.cliSubs c') ∧
    (∀ c' s, c' ≠ c →
      (mem2 (disconnect c st).symSubs s c' ↔ mem2 st.symSubs s c')) := by
  refine ⟨disconnect_active c st, ?_, ?_, ?_, ?_, ?_, ?_⟩
  · rw [disconnect_cliSubs, if_pos rfl]
  · intro s
    constructor
    · intro hm
      rcases (hcons c s).mp hm with ⟨l, hl, hsl⟩
      rw [hc] at hl
      injection hl with hl
      exact hl ▸ hsl
    · intro hs
      exact hinv.cliToSym c s ⟨syms, hc, hs⟩
  · intro s
    rw [disconnect_symSubs_some hc, mem2_dropAll_self]
    rintro ⟨hm, hns⟩
    rcases (hcons c s).mp hm with ⟨l, hl, hsl⟩
    rw [hc] at hl
    injection hl with hl
    exact hns (hl ▸ hsl)
  · intro s hs
    rw [disconnect_symSubs_some hc]
    rw [dropAll_apply, if_neg hs]
  · intro c' hne
    rw [disconnect_cliSubs, if_neg hne]
  · intro c' s hne
    exact disconnect_symSubs_mem_ne hne st s

theorem disconnect_exact_cleanup_witness :
    (disconnect "a" (runOps [Op.connect "a", Op.connect "b",
        Op.subscribe "a" "x", Op.subscribe "b" "y"])).cliSubs "a" = none ∧
    ¬ mem2 (disconnect "a" (runOps [Op.connect "a", Op.connect "b",
        Op.subscribe "a" "x", Op.subscribe "b" "y"])).symSubs "x" "a" ∧
    (disconnect "a" (runOps [Op.connect "a", Op.connect "b",
        Op.subscribe "a" "x", Op.subscribe "b" "y"])).symSubs "y" =
      (runOps [Op.connect "a", Op.connect "b", Op.subscribe "a" "x",
        Op.subscribe "b" "y"]).symSubs "y" := by
  have h := disconnect_exact_cleanup "a"
    (runOps [Op.connect "a", Op.connect "b", Op.subscribe "a" "x",
      Op.subscribe "b" "y"]) ["x"]
    (runOps_inv [Op.connect "a", Op.connect "b", Op.subscribe "a" "x",
      Op.subscribe "b" "y"])
    (runOps_consistent [Op.connect "a", Op.connect "b", Op.subscribe "a" "x",
      Op.subscribe "b" "y"] (by decide))
    (by decide)
  exact ⟨h.2.1, h.2.2.2.1 "x", h.2.2.2.2.1 "y" (by decide)⟩

/-- C3: during one fan-out pass, delivery is attempted to every currently
subscribed connection independently - a connection is delivered to exactly
when its own send succeeds (it is active and its transport accepts), no
matter how many other connections fail - and every connection whose delivery
failed is torn down after the pass: removed from `active_connections` and
from every symbol's subscriber set. -/
theorem broadcast_isolation_and_teardown (sendOk : String → Bool)
    (sym : String) (st : RegState) (subs : List String)
    (hinv : Inv st) (hcons : Consistent st)
    (hs : st.symSubs sym = some subs) :
    (∀ c ∈ subs,
      c ∈ (broadcast_to_symbol sendOk sym st).2.1 ↔
        (c ∈ st.active ∧ sendOk c = true)) ∧
    (∀ c ∈ subs,
      c ∈ (broadcast_to_symbol sendOk sym st).2.2 ↔
        ¬(c ∈ st.active ∧ sendOk c = true)) ∧
    (∀ c ∈ (broadcast_to_symbol sendOk sym st).2.2,
      Cleared (broadcast_to_symbol sendOk sym st).1 c) := by
  refine ⟨?_, ?_, ?_⟩
  · intro c hc
    rw [broadcast_delivered_eq hs]
    simp [List.mem_filter, hc]
  · intro c hc
    rw [broadcast_failed_eq hs]
    simp [List.mem_filter, hc]
    tauto
  · intro c hc
    rw [broadcast_failed_eq hs] at hc
    rw [broadcast_reg_eq hs]
    exact foldl_disconnect_clears hinv hcons _ c hc

theorem broadcast_isolation_and_teardown_witness :
    (("a" ∈ (broadcast_to_symbol (fun c => decide (c = "a")) "x"
        (runOps [Op.connect "a", Op.connect "b", Op.subscribe "a" "x",
          Op.subscribe "b" "x"])).2.1) ↔
      ("a" ∈ (runOps [Op.connect "a", Op.connect "b", Op.subscribe "a" "x",
          Op.subscribe "b" "x"]).active ∧ decide ("a" = "a") = true)) ∧
    Cleared (broadcast_to_symbol (fun c => decide (c = "a")) "x"
      (runOps [Op.connect "a", Op.connect "b", Op.subscribe "a" "x",
        Op.subscribe "b" "x"])).1 "b" := by
  have h := broadcast_isolation_and_teardown (fun c => decide (c = "a")) "x"
    (runOps [Op.connect "a", Op.connect "b", Op.subscribe "a" "x",
      Op.subscribe "b" "x"]) ["b", "a"]
    (runOps_inv [Op.connect "a", Op.connect "b", Op.subscribe "a" "x",
      Op.subscribe "b" "x"])
    (runOps_consistent [Op.connect "a", Op.connect "b", Op.subscribe "a" "x",
      Op.subscribe "b" "x"] (by decide))
    (by decide)
  exact ⟨h.1 "a" (by decide), h.2.2 "b" (by decide)⟩

/-! ## Support lemmas: folded max/min over rationals -/

theorem foldl_max_le_init (xs : List ℚ) (a : ℚ) : a ≤ xs.foldl max a := by
  induction xs generalizing a with
  | nil => exact le_refl a
  | cons x xs ih =>
      rw [List.foldl_cons]
      exact le_trans (le_max_left a x) (ih (max a x))

theorem le_foldl_max (xs : List ℚ) (a x : ℚ) (h : x ∈ xs) :
    x ≤ xs.foldl max a := by
  induction xs generalizing a with
  | nil => exact absurd h (List.not_mem_nil x)
  | cons y ys ih =>
      rw [List.foldl_cons]
      rcases List.mem_cons.mp h with rfl | h'
      · exact le_trans (le_max_right a x) (foldl_max_le_init ys (max a x))
      · exact ih (max a y) h'

theorem foldl_max_mem (xs : List ℚ) (a : ℚ) :
    xs.foldl max a = a ∨ xs.foldl max a ∈ xs := by
  induction xs generalizing a with
  | nil => exact Or.inl rfl
  | cons y ys ih =>
      rw [List.foldl_cons]
      rcases ih (max a y) with heq | hm
      · rcases max_choice a y with hc | hc
        · exact Or.inl (heq.trans hc)
        · refine Or.inr ?_
          rw [heq, hc]
          exact List.mem_cons_self y ys
      · exact Or.inr (List.mem_cons_of_mem y hm)

theorem listMax_mem {l : List ℚ} (h : l ≠ []) : listMax l ∈ l := by
  cases l with
  | nil => exact absurd rfl h
  | cons x xs =>
      show xs.foldl max x ∈ x :: xs
      rcases foldl_max_mem xs x with heq | hm
      · rw [heq]
        exact List.mem_cons_self x xs
      · exact List.mem_cons_of_mem x hm

theorem le_listMax {l : List ℚ} {x : ℚ} (h : x ∈ l) : x ≤ listMax l := by
  cases l with
  | nil => exact absurd h (List.not_mem_nil x)
  | cons y ys =>
      show x ≤ ys.foldl max y
      rcases List.mem_cons.mp h with rfl | h'
      · exact foldl_max_le_init ys x
      · exact le_foldl_max ys y x h'

theorem foldl_min_init_le (xs : List ℚ) (a : ℚ) : xs.foldl min a ≤ a := by
  induction xs generalizing a with
  | nil => exact le_refl a
  | cons x xs ih =>
      rw [List.foldl_cons]
      exact le_trans (ih (min a x)) (min_le_left a x)

theorem foldl_min_le (xs : List ℚ) (a x : ℚ) (h : x ∈ xs) :
    xs.foldl min a ≤ x := by
  induction xs generalizing a with
  | nil => exact absurd h (List.not_mem_nil x)
  | cons y ys ih =>
      rw [List.foldl_cons]
      rcases List.mem_cons.mp h with rfl | h'
      · exact le_trans (foldl_min_init_le ys (min a x)) (min_le_right a x)
      · exact ih (min a y) h'

theorem foldl_min_mem (xs : List ℚ) (a : ℚ) :
    xs.foldl min a = a ∨ xs.foldl min a ∈ xs := by
  induction xs generalizing a with
  | nil => exact Or.inl rfl
  | cons y ys ih =>
      rw [List.foldl_cons]
      rcases ih (min a y) with heq | hm
      · rcases min_choice a y with hc | hc
        · exact Or.inl (heq.trans hc)
        · refine Or.inr ?_
          rw [heq, hc]
          exact List.mem_cons_self y ys
      · exact Or.inr (List.mem_cons_of_mem y hm)

theorem listMin_mem {l : List ℚ} (h : l ≠ []) : listMin l ∈ l := by
  cases l with
  | nil => exact absurd rfl h
  | cons x xs =>
      show xs.foldl min x ∈ x :: xs
      rcases foldl_min_mem xs x with heq | hm
      · rw [heq]
        exact List.mem_cons_self x xs
      · exact List.mem_cons_of_mem x hm

theorem listMin_le {l : List ℚ} {x : ℚ} (h : x ∈ l) : listMin l ≤ x := by
  cases l with
  | nil => exact absurd h (List.not_mem_nil x)
  | cons y ys =>
      show ys.foldl min y ≤ x
      rcases List.mem_cons.mp h with rfl | h'
      · exact foldl_min_init_le ys x
      · exact foldl_min_le ys y x h'

/-! ## Support lemmas: the persistence write path -/

theorem store_orderbook_data_false (symbol : String) (od : OrderBookData) :
    store_orderbook_data false symbol od = none := by
  unfold store_orderbook_data storeAttempt
  by_cases h1 : od.bid = [] ∨ od.ask = []
  · rw [if_pos h1]
  · rw [if_neg h1]
    by_cases h2 : validLevels od.bid = [] ∨ validLevels od.ask = []
    · rw [if_pos h2]
    · rw [if_neg h2]
      rfl

theorem store_orderbook_data_empty {symbol : String} {od : OrderBookData}
    (h : od.bid = [] ∨ od.ask = []) (dbOk : Bool) :
    store_orderbook_data dbOk symbol od = none := by
  unfold store_orderbook_data storeAttempt
  rw [if_pos h]

theorem store_some_of_valid {symbol : String} {od : OrderBookData}
    (hb : od.bid ≠ []) (ha : od.ask ≠ [])
    (hvb : validLevels od.bid = od.bid) (hva : validLevels od.ask = od.ask) :
    store_orderbook_data true symbol od = some
      { symbol := symbol
        best_bid := listMax (od.bid.map levelPrice)
        best_ask := listMin (od.ask.map levelPrice)
        mid_price :=
          (listMax (od.bid.map levelPrice) + listMin (od.ask.map levelPrice)) / 2
        spread :=
          listMin (od.ask.map levelPrice) - listMax (od.bid.map levelPrice)
        spread_percentage :=
          if 0 < (listMax (od.bid.map levelPrice) +
              listMin (od.ask.map levelPrice)) / 2
          then (listMin (od.ask.map levelPrice) -
              listMax (od.bid.map levelPrice)) /
            ((listMax (od.bid.map levelPrice) +
              listMin (od.ask.map levelPrice)) / 2) * 100
          else 0
        bid_volume := (od.bid.map levelQty).sum
        ask_volume := (od.ask.map levelQty).sum
        total_volume := (od.bid.map levelQty).sum + (od.ask.map levelQty).sum
        bid_levels := od.bid
        ask_levels := od.ask } := by
  have h1 : ¬(od.bid = [] ∨ od.ask = []) := by
    rintro (h | h)
    · exact hb h
    · exact ha h
  unfold store_orderbook_data storeAttempt
  rw [if_neg h1]
  simp only [hvb, hva]
  rw [if_neg h1]
  rfl

/-! ## Support lemmas: the cache history buffer -/

theorem cache_history_step (symbol : String) (d : CacheData)
    (cs : CacheState) :
    (cache_order_book_data symbol d cs).history symbol =
      (d :: cs.history symbol).take 100 := by
  unfold cache_order_book_data
  dsimp only
  rw [if_pos rfl]

theorem cache_latest_step (symbol : String) (d : CacheData) (cs : CacheState) :
    (cache_order_book_data symbol d cs).latest symbol = some d := by
  unfold cache_order_book_data
  dsimp only
  exact dInsert_self symbol d cs.latest

theorem take_append_take (a b : List CacheData) :
    (a ++ b.take 100).take 100 = (a ++ b).take 100 := by
  rw [List.take_append_eq_append_take, List.take_append_eq_append_take,
    List.take_take]
  congr 1
  rw [min_eq_left (Nat.sub_le 100 a.length)]

theorem foldl_cache_history (symbol : String) (datas : List CacheData)
    (cs0 : CacheState) (hlen : (cs0.history symbol).length ≤ 100) :
    (datas.foldl (fun acc x => cache_order_book_data symbol x acc)
        cs0).history symbol
      = (datas.reverse ++ cs0.history symbol).take 100 := by
  induction datas generalizing cs0 with
  | nil =>
      rw [List.foldl_nil, List.reverse_nil, List.nil_append,
        List.take_of_length_le hlen]
  | cons d rest ih =>
      rw [List.foldl_cons]
      have hlen2 :
          ((cache_order_book_data symbol d cs0).history symbol).length ≤ 100 := by
        rw [cache_history_step]
        exact List.length_take_le 100 _
      rw [ih _ hlen2, cache_history_step, List.reverse_cons, List.append_assoc]
      exact take_append_take _ _

/-! ## Claims about ingestion, metrics, cache and persistence -/

/-- C1: for every ingested snapshot with both sides non-empty (and levels of
the producer-interface shape, carrying at least price and quantity), the
persisted derived metrics satisfy: best_bid is the maximum bid price,
best_ask the minimum ask price, mid_price their average, spread their
difference, spread_percent = spread/mid*100 when mid > 0 and 0 otherwise,
the volumes are the per-side quantity sums and total_volume their sum; in
particular bid = 100.00 / ask = 100.10 yields mid_price = 100.05,
spread = 0.10 and spread_percent strictly between 0.0999 and 0.1. -/
theorem derived_metrics_correct :
    (∀ (symbol : String) (od : OrderBookData), od.bid ≠ [] → od.ask ≠ [] →
      (∀ l ∈ od.bid, 2 ≤ l.length) → (∀ l ∈ od.ask, 2 ≤ l.length) →
      ∃ r, store_orderbook_data true symbol od = some r ∧
        r.best_bid ∈ od.bid.map levelPrice ∧
        (∀ p ∈ od.bid.map levelPrice, p ≤ r.best_bid) ∧
        r.best_ask ∈ od.ask.map levelPrice ∧
        (∀ p ∈ od.ask.map levelPrice, r.best_ask ≤ p) ∧
        r.mid_price = (r.best_bid + r.best_ask) / 2 ∧
        r.spread = r.best_ask - r.best_bid ∧
        r.spread_percentage =
          (if 0 < r.mid_price then r.spread / r.mid_price * 100 else 0) ∧
        r.bid_volume = (od.bid.map levelQty).sum ∧
        r.ask_volume = (od.ask.map levelQty).sum ∧
        r.total_volume = r.bid_volume + r.ask_volume) ∧
    (∃ r, store_orderbook_data true "T"
        ⟨[[100, 10, 1]], [[1001/10, 5, 1]], none⟩ = some r ∧
      r.mid_price = 10005/100 ∧ r.spread = 1/10 ∧
      999/10000 < r.spread_percentage ∧ r.spread_percentage < 1/10) := by
  have hgen : ∀ (symbol : String) (od : OrderBookData), od.bid ≠ [] →
      od.ask ≠ [] → (∀ l ∈ od.bid, 2 ≤ l.length) →
      (∀ l ∈ od.ask, 2 ≤ l.length) →
      ∃ r, store_orderbook_data true symbol od = some r ∧
        r.best_bid ∈ od.bid.map levelPrice ∧
        (∀ p ∈ od.bid.map levelPrice, p ≤ r.best_bid) ∧
        r.best_ask ∈ od.ask.map levelPrice ∧
        (∀ p ∈ od.ask.map levelPrice, r.best_ask ≤ p) ∧
        r.mid_price = (r.best_bid + r.best_ask) / 2 ∧
        r.spread = r.best_ask - r.best_bid ∧
        r.spread_percentage =
          (if 0 < r.mid_price then r.spread / r.mid_price * 100 else 0) ∧
        r.bid_volume = (od.bid.map levelQty).sum ∧
        r.ask_volume = (od.ask.map levelQty).sum ∧
        r.total_volume = r.bid_volume + r.ask_volume := by
    intro symbol od hb ha hbl hal
    have hvb : validLevels od.bid = od.bid :=
      List.filter_eq_self.mpr (fun l hl => decide_eq_true (hbl l hl))
    have hva : validLevels od.ask = od.ask :=
      List.filter_eq_self.mpr (fun l hl => decide_eq_true (hal l hl))
    have hmapb : od.bid.map levelPrice ≠ [] := by
      intro hcon
      exact hb (List.map_eq_nil_iff.mp hcon)
    have hmapa : od.ask.map levelPrice ≠ [] := by
      intro hcon
      exact ha (List.map_eq_nil_iff.mp hcon)
    refine ⟨_, store_some_of_valid hb ha hvb hva, listMax_mem hmapb,
      fun p hp => le_listMax hp, listMin_mem hmapa,
      fun p hp => listMin_le hp, rfl, rfl, rfl, rfl, rfl, rfl⟩
  refine ⟨hgen, ?_⟩
  rcases hgen "T" ⟨[[100, 10, 1]], [[1001/10, 5, 1]], none⟩ (by simp) (by simp)
      (by simp) (by simp) with
    ⟨r, hstore, hbbm, _, hbam, _, hmid, hspread, hsp, _, _, _⟩
  have hbb : r.best_bid = 100 := by
    simpa [levelPrice] using hbbm
  have hba : r.best_ask = 1001/10 := by
    simpa [levelPrice] using hbam
  refine ⟨r, hstore, ?_, ?_, ?_, ?_⟩
  · rw [hmid, hbb, hba]
    norm_num
  · rw [hspread, hbb, hba]
    norm_num
  · rw [hsp, hspread, hmid, hbb, hba, if_pos (by norm_num)]
    norm_num
  · rw [hsp, hspread, hmid, hbb, hba, if_pos (by norm_num)]
    norm_num

theorem derived_metrics_correct_witness :
    ∃ r, store_orderbook_data true "W"
        ⟨[[99, 7, 1], [98, 3, 1]], [[101, 4, 1], [102, 6, 1]], none⟩
        = some r ∧
      r.best_bid ∈ ([[99, 7, 1], [98, 3, 1]] : List (List ℚ)).map levelPrice ∧
      (∀ p ∈ ([[99, 7, 1], [98, 3, 1]] : List (List ℚ)).map levelPrice,
        p ≤ r.best_bid) ∧
      r.best_ask ∈ ([[101, 4, 1], [102, 6, 1]] : List (List ℚ)).map levelPrice ∧
      (∀ p ∈ ([[101, 4, 1], [102, 6, 1]] : List (List ℚ)).map levelPrice,
        r.best_ask ≤ p) ∧
      r.mid_price = (r.best_bid + r.best_ask) / 2 ∧
      r.spread = r.best_ask - r.best_bid ∧
      r.spread_percentage =
        (if 0 < r.mid_price then r.spread / r.mid_price * 100 else 0) ∧
      r.bid_volume =
        (([[99, 7, 1], [98, 3, 1]] : List (List ℚ)).map levelQty).sum ∧
      r.ask_volume =
        (([[101, 4, 1], [102, 6, 1]] : List (List ℚ)).map levelQty).sum ∧
      r.total_volume = r.bid_volume + r.ask_volume :=
  derived_metrics_correct.1 "W"
    ⟨[[99, 7, 1], [98, 3, 1]], [[101, 4, 1], [102, 6, 1]], none⟩
    (by simp) (by simp) (by simp) (by simp)

/-- C7: an injected persistence failure changes nothing about the fan-out
(the same clients are delivered to and the same failures are torn down), nor
about the cache write, and leaves nothing persisted; the exception raised by
the database write is caught inside `store_orderbook_data`, so the producer
call returns normally with the same outcome apart from the missing row. -/
theorem persistence_failure_isolated (sendOk : String → Bool)
    (symbol : String) (od : OrderBookData) (now : Int) (cs : CacheState)
    (st : RegState) :
    (broadcast_orderbook false sendOk symbol od now cs st).delivered =
      (broadcast_orderbook true sendOk symbol od now cs st).delivered ∧
    (broadcast_orderbook false sendOk symbol od now cs st).failed =
      (broadcast_orderbook true sendOk symbol od now cs st).failed ∧
    (broadcast_orderbook false sendOk symbol od now cs st).reg =
      (broadcast_orderbook true sendOk symbol od now cs st).reg ∧
    (broadcast_orderbook false sendOk symbol od now cs st).cache =
      (broadcast_orderbook true sendOk symbol od now cs st).cache ∧
    (broadcast_orderbook false sendOk symbol od now cs st).persisted = none :=
  ⟨rfl, rfl, rfl, rfl, store_orderbook_data_false symbol od⟩

/-- C8: a snapshot with an empty bid or ask side is still written to the
cache (latest slot and history head) and still fanned out to subscribers,
but nothing is persisted for it. -/
theorem empty_side_cached_not_persisted (dbOk : Bool)
    (sendOk : String → Bool) (symbol : String) (od : OrderBookData)
    (now : Int) (cs : CacheState) (st : RegState)
    (h : od.bid = [] ∨ od.ask = []) :
    (broadcast_orderbook dbOk sendOk symbol od now cs st).persisted = none ∧
    (broadcast_orderbook dbOk sendOk symbol od now cs st).cache.latest symbol
      = some { symbol := symbol, timestamp := od.timestamp, data := od
               cached_at := now, time := none } ∧
    (broadcast_orderbook dbOk sendOk symbol od now cs st).cache.history symbol
      = ({ symbol := symbol, timestamp := od.timestamp, data := od
           cached_at := now, time := none } :: cs.history symbol).take 100 ∧
    (broadcast_orderbook dbOk sendOk symbol od now cs st).delivered =
      (broadcast_to_symbol sendOk symbol st).2.1 ∧
    (broadcast_orderbook dbOk sendOk symbol od now cs st).reg =
      (broadcast_to_symbol sendOk symbol st).1 :=
  ⟨store_orderbook_data_empty h dbOk,
    cache_latest_step symbol _ cs,
    cache_history_step symbol _ cs,
    rfl, rfl⟩

theorem empty_side_cached_not_persisted_witness :
    (broadcast_orderbook true (fun _ => true) "E" ⟨[], [[1, 2, 3]], none⟩ 5
      CacheState.init RegState.init).persisted = none ∧
    (broadcast_orderbook true (fun _ => true) "E" ⟨[], [[1, 2, 3]], none⟩ 5
      CacheState.init RegState.init).cache.latest "E"
      = some { symbol := "E", timestamp := none, data := ⟨[], [[1, 2, 3]], none⟩
               cached_at := 5, time := none } ∧
    (broadcast_orderbook true (fun _ => true) "E" ⟨[], [[1, 2, 3]], none⟩ 5
      CacheState.init RegState.init).cache.history "E"
      = ({ symbol := "E", timestamp := none, data := ⟨[], [[1, 2, 3]], none⟩
           cached_at := 5, time := none } :: CacheState.init.history "E").take 100 ∧
    (broadcast_orderbook true (fun _ => true) "E" ⟨[], [[1, 2, 3]], none⟩ 5
      CacheState.init RegState.init).delivered =
      (broadcast_to_symbol (fun _ => true) "E" RegState.init).2.1 ∧
    (broadcast_orderbook true (fun _ => true) "E" ⟨[], [[1, 2, 3]], none⟩ 5
      CacheState.init RegState.init).reg =
      (broadcast_to_symbol (fun _ => true) "E" RegState.init).1 :=
  empty_side_cached_not_persisted true (fun _ => true) "E"
    ⟨[], [[1, 2, 3]], none⟩ 5 CacheState.init RegState.init (Or.inl rfl)

/-- C4 counterexample: the ingestion entry point applies no price/quantity
validation: a snapshot whose bid level has a negative price (and a perfectly
ordinary ask) is persisted, cached, and delivered to the subscriber, instead
of being rejected as `MalformedSnapshot`. -/
theorem negative_price_accepted_counterexample :
    ((broadcast_orderbook true (fun _ => true) "S"
        ⟨[[-1, 5, 1]], [[2, 3, 1]], none⟩ 0 CacheState.init
        (runOps [Op.connect "a", Op.subscribe "a" "S"])).persisted).isSome
      = true ∧
    (broadcast_orderbook true (fun _ => true) "S"
        ⟨[[-1, 5, 1]], [[2, 3, 1]], none⟩ 0 CacheState.init
        (runOps [Op.connect "a", Op.subscribe "a" "S"])).cache.latest "S"
      ≠ none ∧
    (broadcast_orderbook true (fun _ => true) "S"
        ⟨[[-1, 5, 1]], [[2, 3, 1]], none⟩ 0 CacheState.init
        (runOps [Op.connect "a", Op.subscribe "a" "S"])).delivered
      = ["a"] := by
  refine ⟨by decide, by decide, by decide⟩

/-- C4 (amended): ingestion performs no validation of level prices or
quantities and never raises to the producer: every snapshot, including one
with negative prices or quantities, is cached and fanned out unchanged, and
a record is persisted exactly when both sides are non-empty, both sides
retain at least one length-≥-2 level, and the database write succeeds - the
values of prices and quantities play no role. -/
theorem ingestion_no_value_validation (dbOk : Bool) (sendOk : String → Bool)
    (symbol : String) (od : OrderBookData) (now : Int) (cs : CacheState)
    (st : RegState) :
    ((broadcast_orderbook dbOk sendOk symbol od now cs st).persisted.isSome ↔
      (od.bid ≠ [] ∧ od.ask ≠ [] ∧ validLevels od.bid ≠ [] ∧
        validLevels od.ask ≠ [] ∧ dbOk = true)) ∧
    (broadcast_orderbook dbOk sendOk symbol od now cs st).cache.latest symbol
      ≠ none ∧
    (broadcast_orderbook dbOk sendOk symbol od now cs st).delivered =
      (broadcast_to_symbol sendOk symbol st).2.1 := by
  refine ⟨?_, ?_, rfl⟩
  · show (store_orderbook_data dbOk symbol od).isSome = true ↔ _
    unfold store_orderbook_data storeAttempt
    by_cases h1 : od.bid = [] ∨ od.ask = []
    · rw [if_pos h1]
      constructor
      · intro hcon
        simp at hcon
      · rintro ⟨hbne, hane, -, -, -⟩
        rcases h1 with h | h
        · exact absurd h hbne
        · exact absurd h hane
    · rw [if_neg h1]
      rcases not_or.mp h1 with ⟨hb, ha⟩
      by_cases h2 : validLevels od.bid = [] ∨ validLevels od.ask = []
      · rw [if_pos h2]
        constructor
        · intro hcon
          simp at hcon
        · rintro ⟨-, -, hvb, hva, -⟩
          rcases h2 with h | h
          · exact absurd h hvb
          · exact absurd h hva
      · rw [if_neg h2]
        rcases not_or.mp h2 with ⟨hvb, hva⟩
        cases dbOk with
        | true => simp [hb, ha, hvb, hva]
        | false =>
            constructor
            · intro hcon
              simp at hcon
            · rintro ⟨-, -, -, -, hdb⟩
              exact absurd hdb (by decide)
  · show (cache_orderbook_data symbol od now cs).latest symbol ≠ none
    unfold cache_orderbook_data
    rw [cache_latest_step]
    simp

/-- C2: the intended "today's data" read - and the behaviour the repo's own
caching test expects - is that an entry cached at ingestion today is returned
by `get_cached_order_book_data_today`, but the code filters on a `time` dict
key that the ingestion cache path (`cache_orderbook_data`) never writes (it
writes `cached_at`), so the entry sits in the history list and the today-read
still returns the empty list. -/
theorem today_read_drops_ingested_entry (todayStart now : Int)
    (_hsameday : todayStart ≤ now) :
    (cache_orderbook_data "AAPL" ⟨[], [], none⟩ now CacheState.init).history
        "AAPL"
      = [{ symbol := "AAPL", timestamp := none, data := ⟨[], [], none⟩
           cached_at := now, time := none }] ∧
    get_cached_order_book_data_today todayStart "AAPL"
      (cache_orderbook_data "AAPL" ⟨[], [], none⟩ now CacheState.init)
      = [] := by
  have h1 : (cache_orderbook_data "AAPL" ⟨[], [], none⟩ now
        CacheState.init).history "AAPL"
      = [{ symbol := "AAPL", timestamp := none, data := ⟨[], [], none⟩
           cached_at := now, time := none }] := by
    show (cache_order_book_data "AAPL"
        { symbol := "AAPL", timestamp := none, data := ⟨[], [], none⟩
          cached_at := now, time := none } CacheState.init).history "AAPL" = _
    rw [cache_history_step]
    rfl
  refine ⟨h1, ?_⟩
  unfold get_cached_order_book_data_today
  rw [h1]
  rfl

theorem today_read_drops_ingested_entry_witness :
    (cache_orderbook_data "AAPL" ⟨[], [], none⟩ 9 CacheState.init).history
        "AAPL"
      = [{ symbol := "AAPL", timestamp := none, data := ⟨[], [], none⟩
           cached_at := 9, time := none }] ∧
    get_cached_order_book_data_today 3 "AAPL"
      (cache_orderbook_data "AAPL" ⟨[], [], none⟩ 9 CacheState.init) = [] :=
  today_read_drops_ingested_entry 3 9 (by decide)

/-- C5 counterexample: the history read is not always bounded by its `limit`
argument: with one entry in the buffer, a read with `limit = 0` returns that
entry, because `lrange(key, 0, limit - 1)` becomes `lrange(key, 0, -1)`,
which Redis interprets as "through the last element". -/
theorem history_limit_zero_counterexample :
    (get_cached_order_book_history "A" 0
      (cache_orderbook_data "A" ⟨[], [], none⟩ 0 CacheState.init)).length
      = 1 := by
  decide

/-- C5 (amended): the history buffer never holds more than 100 entries after
any append; appending 105 snapshots from empty leaves exactly the 100 most
recent, most recent first; and a read with `limit ≥ 1` returns at most
`limit` entries (a read with `limit ≤ 0` is not bounded by `limit`:
`limit = 0` returns the entire buffer). -/
theorem history_capacity (symbol : String) (d : CacheData) (cs : CacheState)
    (datas : List CacheData) (limit : Int) :
    ((cache_order_book_data symbol d cs).history symbol).length ≤ 100 ∧
    (datas.length = 105 →
      (datas.foldl (fun acc x => cache_order_book_data symbol x acc)
          CacheState.init).history symbol = datas.reverse.take 100 ∧
      ((datas.foldl (fun acc x => cache_order_book_data symbol x acc)
          CacheState.init).history symbol).length = 100) ∧
    (1 ≤ limit →
      ((get_cached_order_book_history symbol limit cs).length : Int)
        ≤ limit) := by
  refine ⟨?_, ?_, ?_⟩
  · rw [cache_history_step]
    exact List.length_take_le 100 _
  · intro hlen
    have hfold : (datas.foldl (fun acc x => cache_order_book_data symbol x acc)
        CacheState.init).history symbol = datas.reverse.take 100 := by
      rw [foldl_cache_history symbol datas CacheState.init (by simp [CacheState.init])]
      show (datas.reverse ++ ([] : List CacheData)).take 100 = _
      rw [List.append_nil]
    refine ⟨hfold, ?_⟩
    rw [hfold, List.length_take, List.length_reverse, hlen]
    rfl
  · intro hlim
    have h1 : ¬((limit - 1 : Int) < 0) := by omega
    unfold get_cached_order_book_history lrangeFromZero
    simp only [if_neg h1]
    have h2 := List.length_take_le ((limit - 1).toNat + 1) (cs.history symbol)
    have h3 : (((limit - 1).toNat + 1 : Nat) : Int) = limit := by omega
    omega

theorem history_capacity_witness :
    ((cache_order_book_data "A"
        { symbol := "A", timestamp := none, data := ⟨[], [], none⟩
          cached_at := 0, time := none } CacheState.init).history "A").length
      ≤ 100 ∧
    ((List.replicate 105
        ({ symbol := "A", timestamp := none, data := ⟨[], [], none⟩
           cached_at := 0, time := none } : CacheData)).foldl
        (fun acc x => cache_order_book_data "A" x acc)
        CacheState.init).history "A"
      = (List.replicate 105
          ({ symbol := "A", timestamp := none, data := ⟨[], [], none⟩
             cached_at := 0, time := none } : CacheData)).reverse.take 100 ∧
    ((get_cached_order_book_history "A" 7 CacheState.init).length : Int)
      ≤ 7 := by
  have h := history_capacity "A"
    { symbol := "A", timestamp := none, data := ⟨[], [], none⟩
      cached_at := 0, time := none } CacheState.init
    (List.replicate 105
      { symbol := "A", timestamp := none, data := ⟨[], [], none⟩
        cached_at := 0, time := none }) 7
  exact ⟨h.1, (h.2.1 (by simp)).1, h.2.2 (by norm_num)⟩

end MarketRealtime
